import Mathlib

/-!
Verification of the SnapVault photo-organizer (`src/main.py`) against its
natural-language specification.

The development shallowly embeds the transfer engine of `main.py`:

* `rglobFiles` / `getImageFiles`   — `get_image_files` (lines 318-334);
* `resolveName` / `probeName`      — the duplicate-filename `while` loop of
  `organize_photos` (lines 362-370);
* `organizePhotos` / `processFile` — `organize_photos` (lines 337-396);
* `copyFolderToSmb`                — `copy_folder_to_smb` (lines 150-294),
  with the environment-dependent outcomes (mount, mkdir, rsync, umount)
  supplied by an oracle record `SmbEnv` and the externally visible actions
  recorded in an event trace;
* `copyToDestinations`             — `copy_to_destinations` (lines 399-465);
* `mainRun`                        — the orchestration slice of `main`
  (lines 519-601): folder naming, organize, ship, cleanup.

Machine integers do not occur; file contents are abstracted as `Nat` tokens
(the Python code never inspects bytes, it only copies them).  Paths are
segment lists.  A run-relevant filesystem is an association list from paths
to contents, newest entry first, which matches the create-only discipline of
the code (`shutil.copy2` to a freshly probed non-existing name).
-/

namespace SnapVault

/-! ### Decimal rendering of naturals

`organize_photos` builds disambiguated filenames with the f-string
`f"{stem}_{counter}{suffix}"`, i.e. with the decimal representation of the
counter.  To reason about the probing loop we need that `Nat.repr` is
injective; the library does not provide this, so we prove it by exhibiting a
left inverse built from the digit characters. -/

/-- Numeric value of a decimal digit character (left inverse of
`Nat.digitChar` on `0..9`). -/
def digitVal (c : Char) : Nat := c.toNat - 48

theorem digitVal_digitChar (n : Nat) (h : n < 10) : digitVal (Nat.digitChar n) = n := by
  interval_cases n <;> rfl

/-- The decimal digit string of `n`, most significant digit first; a
structural restatement of `Nat.toDigitsCore` at base 10. -/
def decChars (n : Nat) : List Char :=
  if n < 10 then [Nat.digitChar n]
  else decChars (n / 10) ++ [Nat.digitChar (n % 10)]
decreasing_by exact Nat.div_lt_self (by omega) (by omega)

theorem toDigitsCore_eq_decChars (fuel : Nat) :
    ∀ (n : Nat) (ds : List Char), n < fuel →
      Nat.toDigitsCore 10 fuel n ds = decChars n ++ ds := by
  induction fuel with
  | zero => intro n ds h; omega
  | succ fuel ih =>
    intro n ds h
    rw [Nat.toDigitsCore]
    by_cases h10 : n < 10
    · have hdiv : n / 10 = 0 := Nat.div_eq_of_lt h10
      simp [hdiv, decChars, h10, Nat.mod_eq_of_lt h10]
    · have hge : 10 ≤ n := by omega
      have hdiv : n / 10 ≠ 0 := by
        have := (Nat.one_le_div_iff (by omega : 0 < 10)).mpr hge
        omega
      have hlt : n / 10 < fuel := by
        have := Nat.div_lt_self (by omega : 0 < n) (by omega : 1 < 10)
        omega
      rw [if_neg hdiv, ih (n / 10) _ hlt]
      conv_rhs => rw [decChars]
      simp [h10]

/-- Decimal value of a digit string (left inverse of `decChars`). -/
def decVal (l : List Char) : Nat := l.foldl (fun a c => 10 * a + digitVal c) 0

theorem decVal_decChars (n : Nat) : decVal (decChars n) = n := by
  induction n using Nat.strong_induction_on with
  | _ n ih =>
    rw [decChars]
    by_cases h10 : n < 10
    · simp [decVal, h10, digitVal_digitChar n h10]
    · rw [if_neg h10]
      have hlt : n / 10 < n := Nat.div_lt_self (by omega) (by omega)
      have := ih (n / 10) hlt
      simp only [decVal, List.foldl_append] at *
      simp [this, digitVal_digitChar (n % 10) (Nat.mod_lt n (by omega))]
      omega

theorem decChars_injective : Function.Injective decChars := by
  intro a b h
  have := decVal_decChars a
  rw [h, decVal_decChars] at this
  omega

theorem natRepr_eq_decChars (n : Nat) : Nat.repr n = (decChars n).asString := by
  show (Nat.toDigits 10 n).asString = _
  rw [Nat.toDigits, toDigitsCore_eq_decChars (n + 1) n [] (by omega), List.append_nil]

theorem natRepr_injective : Function.Injective Nat.repr := by
  intro a b h
  apply decChars_injective
  rw [natRepr_eq_decChars, natRepr_eq_decChars] at h
  have : ((decChars a).asString).data = ((decChars b).asString).data := by rw [h]
  simpa using this

/-! ### The duplicate-filename probe of `organize_photos`

```python
dest_file = date_folder / img_file.name
counter = 1
while dest_file.exists():
    stem = img_file.stem
    suffix = img_file.suffix
    dest_file = date_folder / f"{stem}_{counter}{suffix}"
    counter += 1
```

The loop checks existence of a basename inside one directory, so we embed it
over the (finite) list of names already present in that directory.  The
`while` loop is embedded with explicit fuel; `existing.length + 1` steps are
provably enough to reach an unclaimed candidate (the candidates are pairwise
distinct strings), so the fuel-exhausted branch is unreachable. -/

/-- The `counter`-th disambiguated candidate, `f"{stem}_{counter}{suffix}"`. -/
def candidateName (stem sfx : String) (k : Nat) : String :=
  stem ++ "_" ++ toString k ++ sfx

theorem candidateName_inj (stem sfx : String) {i j : Nat}
    (h : candidateName stem sfx i = candidateName stem sfx j) : i = j := by
  apply natRepr_injective
  apply String.ext
  have hd : (stem ++ "_" ++ toString i ++ sfx).data
      = (stem ++ "_" ++ toString j ++ sfx).data := by
    rw [show stem ++ "_" ++ toString i ++ sfx = candidateName stem sfx i from rfl,
      show stem ++ "_" ++ toString j ++ sfx = candidateName stem sfx j from rfl, h]
  simp only [String.data_append] at hd
  exact List.append_cancel_left (List.append_cancel_right hd)

/-- One fuel-bounded pass of the `while dest_file.exists()` loop, starting at
counter value `counter`. -/
def probeName (existing : List String) (stem sfx : String) : Nat → Nat → String
  | counter, 0 => candidateName stem sfx counter
  | counter, fuel + 1 =>
    let c := candidateName stem sfx counter
    if c ∈ existing then probeName existing stem sfx (counter + 1) fuel else c

/-- `while dest_file.exists()` probe specification: if some candidate in the
fuel window is unclaimed, the probe returns the first unclaimed candidate. -/
theorem probeName_spec (existing : List String) (stem sfx : String) :
    ∀ (fuel counter : Nat),
      (∃ k, counter ≤ k ∧ k < counter + fuel ∧ candidateName stem sfx k ∉ existing) →
      probeName existing stem sfx counter fuel ∉ existing ∧
      ∃ k, counter ≤ k ∧ probeName existing stem sfx counter fuel = candidateName stem sfx k ∧
        ∀ j, counter ≤ j → j < k → candidateName stem sfx j ∈ existing := by
  intro fuel
  induction fuel with
  | zero =>
    intro counter ⟨k, hk1, hk2, _⟩
    omega
  | succ fuel ih =>
    intro counter ⟨k, hk1, hk2, hk3⟩
    by_cases hc : candidateName stem sfx counter ∈ existing
    · have hkc : counter + 1 ≤ k := by
        rcases Nat.eq_or_lt_of_le hk1 with h | h
        · exact absurd hc (h ▸ hk3)
        · omega
      have ⟨h1, k', hk'1, hk'2, hk'3⟩ :=
        ih (counter + 1) ⟨k, hkc, by omega, hk3⟩
      refine ⟨?_, k', by omega, ?_, ?_⟩
      · simpa [probeName, hc] using h1
      · simpa [probeName, hc] using hk'2
      · intro j hj1 hj2
        rcases Nat.eq_or_lt_of_le hj1 with h | h
        · exact h ▸ hc
        · exact hk'3 j (by omega) hj2
    · refine ⟨by simp [probeName, hc], counter, le_refl _, ?_, ?_⟩
      · simp [probeName, hc]
      · intro j hj1 hj2; omega

/-- Pigeonhole: among `existing.length + 1` consecutive candidates at least
one is not in `existing`. -/
theorem candidate_free_exists (existing : List String) (stem sfx : String) (counter : Nat) :
    ∃ k, counter ≤ k ∧ k < counter + (existing.length + 1) ∧
      candidateName stem sfx k ∉ existing := by
  by_contra hall
  push_neg at hall
  have hsub : (Finset.range (existing.length + 1)).image
      (fun i => candidateName stem sfx (counter + i)) ⊆ existing.toFinset := by
    intro x hx
    simp only [Finset.mem_image, Finset.mem_range] at hx
    obtain ⟨i, hi, rfl⟩ := hx
    exact List.mem_toFinset.mpr (hall _ (by omega) (by omega))
  have hcard : existing.length + 1 ≤ existing.toFinset.card := by
    have := Finset.card_le_card hsub
    rwa [Finset.card_image_of_injective _ (fun a b hab => by
      have := candidateName_inj stem sfx hab; omega), Finset.card_range] at this
  have := List.toFinset_card_le existing
  omega

/-- The full duplicate-filename resolution of `organize_photos`: the desired
name `img_file.name = stem ++ suffix` is kept if unclaimed, otherwise the
counter probe runs (with provably sufficient fuel). -/
def resolveName (existing : List String) (stem sfx : String) : String :=
  if stem ++ sfx ∈ existing then probeName existing stem sfx 1 (existing.length + 1)
  else stem ++ sfx

theorem resolveName_not_mem (existing : List String) (stem sfx : String) :
    resolveName existing stem sfx ∉ existing := by
  unfold resolveName
  by_cases h : stem ++ sfx ∈ existing
  · rw [if_pos h]
    have ⟨k, hk1, hk2, hk3⟩ := candidate_free_exists existing stem sfx 1
    exact (probeName_spec existing stem sfx (existing.length + 1) 1 ⟨k, hk1, hk2, hk3⟩).1
  · rw [if_neg h]; exact h

theorem resolveName_keeps_fresh (existing : List String) (stem sfx : String)
    (h : stem ++ sfx ∉ existing) : resolveName existing stem sfx = stem ++ sfx := by
  simp [resolveName, h]

theorem resolveName_probes (existing : List String) (stem sfx : String)
    (h : stem ++ sfx ∈ existing) :
    ∃ k, 1 ≤ k ∧ resolveName existing stem sfx = candidateName stem sfx k ∧
      ∀ j, 1 ≤ j → j < k → candidateName stem sfx j ∈ existing := by
  have ⟨k, hk1, hk2, hk3⟩ := candidate_free_exists existing stem sfx 1
  have ⟨_, k', h1, h2, h3⟩ :=
    probeName_spec existing stem sfx (existing.length + 1) 1 ⟨k, hk1, hk2, hk3⟩
  exact ⟨k', h1, by simpa [resolveName, h] using h2, h3⟩

/-! ### Paths and the run-local filesystem

Paths are segment lists (`pathlib` `/`-joins become list appends).  The
organize phase only ever creates fresh files (`shutil.copy2` onto a name the
probe has just verified not to exist), so an association list with newest
entry first is a faithful store. -/

abbrev Path := List String

abbrev FileSys := List (Path × Nat)

/-- `Path(p).exists()` restricted to files tracked by the store. -/
def fsHas (fs : FileSys) (p : Path) : Bool := fs.any (fun e => e.1 == p)

def fsGet (fs : FileSys) (p : Path) : Option Nat :=
  (fs.find? (fun e => e.1 == p)).map (fun e => e.2)

/-- `shutil.copy2`'s write half: record content `v` at path `p`. -/
def fsSet (fs : FileSys) (p : Path) (v : Nat) : FileSys := (p, v) :: fs

/-- `shutil.rmtree`: drop every file at or below `root`. -/
def fsRemoveTree (fs : FileSys) (root : Path) : FileSys :=
  fs.filter (fun e => !(List.isPrefixOf root e.1))

/-- The basenames present in directory `dir` (what the `dest_file.exists()`
probe of the duplicate-name loop can observe). -/
def namesIn (fs : FileSys) (dir : Path) : List String :=
  fs.filterMap (fun e => if e.1.dropLast == dir then e.1.getLast? else none)

/-! ### `organize_photos` (lines 337-396) -/

/-- A source image as `organize_photos` sees it: its path on the source
volume, `pathlib` stem and suffix, and the date string the Date Classifier
(`get_date_taken`, an external collaborator that never fails the run)
returns for it. -/
structure ImgFile where
  srcPath : Path
  stem : String
  sfx : String
  date : String
deriving DecidableEq

/-- The `stats` dict built at lines 390-394. -/
structure RunStats where
  total_photos : Nat
  date_folders : Nat
  date_breakdown : List (String × Nat)
deriving DecidableEq

/-- Local filesystem actions of the organize phase. -/
inductive LocalEv where
  | mkdirTop (dir : Path)
  | mkdirDate (dir : Path)
  | copyFile (src dst : Path)
deriving DecidableEq, Repr

/-- `date_counts[date_str] = date_counts.get(date_str, 0) + 1` on an
insertion-ordered dict. -/
def bumpCount : List (String × Nat) → String → List (String × Nat)
  | [], d => [(d, 1)]
  | (k, v) :: rest, d =>
    if k = d then (k, v + 1) :: rest else (k, v) :: bumpCount rest d

def sumCounts (counts : List (String × Nat)) : Nat := (counts.map (fun e => e.2)).sum

structure OrgSt where
  fs : FileSys
  counts : List (String × Nat)
  evs : List LocalEv
deriving DecidableEq

/-- One iteration of the per-file loop (lines 356-381).  `ok = false` models
an OS error raised while copying this file (`shutil.copy2`), which the
`except` clause catches: the failure is logged and the loop continues, with
no `date_counts` increment for this file. -/
def processFile (topLevel : Path) (st : OrgSt) (f : ImgFile) (ok : Bool) : OrgSt :=
  let dateFolder := topLevel ++ [f.date]
  let evs := st.evs ++ [LocalEv.mkdirDate dateFolder]
  let nm := resolveName (namesIn st.fs dateFolder) f.stem f.sfx
  if ok then
    { fs := fsSet st.fs (dateFolder ++ [nm]) ((fsGet st.fs f.srcPath).getD 0)
      counts := bumpCount st.counts f.date
      evs := evs ++ [LocalEv.copyFile f.srcPath (dateFolder ++ [nm])] }
  else
    { st with evs := evs }

/-- The `for img_file in image_files` loop; `ok i` is the oracle outcome for
the file at position `i`. -/
def organizeLoop (topLevel : Path) (ok : Nat → Bool) :
    Nat → OrgSt → List ImgFile → OrgSt
  | _, st, [] => st
  | i, st, f :: rest =>
    organizeLoop topLevel ok (i + 1) (processFile topLevel st f (ok i)) rest

/-- `organize_photos(source_dir, dest_dir, folder_name)` with the enumerated
file list already supplied (enumeration itself is `getImageFiles` below).
Returns `(None, {})` — here `(none, zero stats)` — when no images were
found, else the organized top-level folder and the stats dict. -/
def organizePhotos (fs0 : FileSys) (destDir : Path) (folderName : String)
    (files : List ImgFile) (ok : Nat → Bool) :
    Option Path × RunStats × FileSys × List LocalEv :=
  let topLevel := destDir ++ [folderName]
  let evs0 := [LocalEv.mkdirTop topLevel]
  if files.isEmpty then
    (none, ⟨0, 0, []⟩, fs0, evs0)
  else
    let st := organizeLoop topLevel ok 0 ⟨fs0, [], evs0⟩ files
    (some topLevel, ⟨files.length, st.counts.length, st.counts⟩, st.fs, st.evs)

/-- The dated-directory creation attempts (`date_folder.mkdir(exist_ok=True)`,
line 360) recorded in a trace. -/
def dateMkdirEvs (evs : List LocalEv) : List Path :=
  evs.filterMap (fun e => match e with | LocalEv.mkdirDate d => some d | _ => none)

/-- The per-file copy actions (`shutil.copy2`, line 373) recorded in a trace. -/
def copyEvs (evs : List LocalEv) : List (Path × Path) :=
  evs.filterMap (fun e => match e with | LocalEv.copyFile s d => some (s, d) | _ => none)

/-! ### `copy_folder_to_smb` (lines 150-294)

The function shells out to `mount`, `rsync` and `umount`; we embed its
control flow, with the success/failure of each external command supplied by
the oracle record `SmbEnv` and every externally visible action recorded in
an event trace.  `basePath` stands for share root plus `remote_path`, so the
remote folder `final_dest` is `basePath ++ [folderName]`. -/

structure SmbEnv where
  /-- mount point directory exists and appears in the mount table (line 161). -/
  staleMounted : Bool
  /-- the stale `umount` succeeds (line 166). -/
  staleUmountOk : Bool
  /-- the stale `umount -l` fallback succeeds (line 171). -/
  staleLazyOk : Bool
  /-- the CIFS `mount` command succeeds (line 215). -/
  mountOk : Bool
  /-- `remote_path` is non-empty (line 225). -/
  remotePathSet : Bool
  /-- the remote `mkdir` calls do not raise (lines 227, 236). -/
  remoteMkdirOk : Bool
  /-- `final_dest.exists()` (line 231). -/
  destFolderPresent : Bool
  /-- `rsync` exits with code 0 (line 266). -/
  rsyncOk : Bool
  /-- the final `umount` in the `finally` block succeeds (line 283). -/
  umountOk : Bool
deriving DecidableEq

inductive SmbEv where
  | umountStale
  | umountStaleLazy
  | mountCmd (ok : Bool)
  | mkdirRemoteBase (p : Path)
  | mkdirRemoteTop (p : Path)
  | rsyncCopy (src dst : Path)
  | umountCmd
  | umountLazy
deriving DecidableEq, Repr

/-- The files currently stored at or below `root`. -/
def filesUnder (fs : FileSys) (root : Path) : List (Path × Nat) :=
  fs.filter (fun e => List.isPrefixOf root e.1)

/-- `rsync -avh source/ dest/` transfers every file below `src` to the same
relative path below `dst`. -/
def rsyncEvents (fs : FileSys) (src dst : Path) : List SmbEv :=
  (filesUnder fs src).map (fun e => SmbEv.rsyncCopy e.1 (dst ++ e.1.drop src.length))

/-- The `finally` block (lines 280-294): `umount`, falling back to
`umount -l` when it fails. -/
def smbCleanup (env : SmbEnv) : List SmbEv :=
  if env.umountOk then [SmbEv.umountCmd] else [SmbEv.umountCmd, SmbEv.umountLazy]

/-- `copy_folder_to_smb(source_folder, ..., share_name, remote_path)`.
Returns the Python function's boolean result and the trace of external
actions, in program order. -/
def copyFolderToSmb (env : SmbEnv) (fs : FileSys) (srcFolder : Path)
    (basePath : Path) (folderName : String) : Bool × List SmbEv :=
  -- stale-mount cleanup (lines 160-200)
  if env.staleMounted ∧ ¬env.staleUmountOk ∧ ¬env.staleLazyOk then
    (false, [SmbEv.umountStale, SmbEv.umountStaleLazy])
  else
    let pre : List SmbEv :=
      if env.staleMounted then
        if env.staleUmountOk then [SmbEv.umountStale]
        else [SmbEv.umountStale, SmbEv.umountStaleLazy]
      else []
    -- mount (lines 214-220): on failure return False with no session held
    if ¬env.mountOk then (false, pre ++ [SmbEv.mountCmd false])
    else
      let mounted := pre ++ [SmbEv.mountCmd true]
      let fin := smbCleanup env
      -- try body (lines 222-278), finally (lines 280-294)
      let baseEvs := if env.remotePathSet then [SmbEv.mkdirRemoteBase basePath] else []
      if env.remotePathSet ∧ ¬env.remoteMkdirOk then
        -- dest_path.mkdir raised; caught at line 275, returns False
        (false, mounted ++ baseEvs ++ fin)
      else
        let finalDest := basePath ++ [folderName]
        if env.destFolderPresent then
          -- lines 231-234: destination already exists, skip, return True
          (true, mounted ++ baseEvs ++ fin)
        else if ¬env.remoteMkdirOk then
          -- final_dest.mkdir raised; caught at line 275, returns False
          (false, mounted ++ baseEvs ++ [SmbEv.mkdirRemoteTop finalDest] ++ fin)
        else
          -- rsync (lines 239-273): True iff exit code 0
          (env.rsyncOk, mounted ++ baseEvs ++ [SmbEv.mkdirRemoteTop finalDest]
            ++ rsyncEvents fs srcFolder finalDest ++ fin)

/-- One configured NAS destination of `copy_to_destinations`. -/
structure Dest where
  basePath : Path
  env : SmbEnv
deriving DecidableEq

/-- `copy_to_destinations` (lines 399-465): ship sequentially; a `False`
result raises, aborting the loop (later destinations are not attempted). -/
def copyToDestinations (fs : FileSys) (srcFolder : Path) (folderName : String) :
    List Dest → Except String Unit × List SmbEv
  | [] => (Except.ok (), [])
  | d :: rest =>
    let r := copyFolderToSmb d.env fs srcFolder d.basePath folderName
    if r.1 then
      let r2 := copyToDestinations fs srcFolder folderName rest
      (r2.1, r.2 ++ r2.2)
    else
      (Except.error "Failed to copy", r.2)

/-! ### The orchestration slice of `main` (lines 519-601) -/

/-- `folder_name = f"{current_year} - {folder_input}"` (line 530). -/
def makeFolderName (year : Nat) (label : String) : String :=
  toString year ++ " - " ++ label

structure RunOutcome where
  result : Except String RunStats
  fs : FileSys
  remoteEvs : List SmbEv
  localEvs : List LocalEv

/-- The `try/except/finally` of `main` after the folder name is fixed:
organize into the temp directory, ship to every destination, and always
remove the organized temp folder (lines 584-594; the source volume is never
touched by cleanup). -/
def mainRun (fs0 : FileSys) (tempDir : Path) (year : Nat) (label : String)
    (files : List ImgFile) (ok : Nat → Bool) (dests : List Dest) : RunOutcome :=
  let folderName := makeFolderName year label
  match organizePhotos fs0 tempDir folderName files ok with
  | (none, _, fs1, lev) =>
    -- line 552: raise; `organized_folder` is None so cleanup removes nothing
    ⟨Except.error "Failed to organize photos - no images found", fs1, [], lev⟩
  | (some top, stats, fs1, lev) =>
    let shipped := copyToDestinations fs1 top folderName dests
    ⟨match shipped.1 with
      | Except.ok _ => Except.ok stats
      | Except.error e => Except.error e,
     fsRemoveTree fs1 top, shipped.2, lev⟩

/-! ### `get_image_files` (lines 318-334)

The source tree is modelled as data: each directory node carries its entries
in the order the operating system reports them, so `rglob` is a pure
traversal of the tree value. -/

inductive FTree where
  | node (fileNames : List String) (dirs : List (String × FTree))

mutual

/-- `source_path.rglob('*')` restricted to the entries that are files,
as relative paths from the root. -/
def rglobFiles : FTree → List Path
  | FTree.node fls ds => fls.map (fun n => [n]) ++ rglobDirs ds

/-- Recursion over the subdirectory entries of a node. -/
def rglobDirs : List (String × FTree) → List Path
  | [] => []
  | (d, t) :: rest => (rglobFiles t).map (fun p => d :: p) ++ rglobDirs rest

end

/-- Index of the last `'.'` in a list of characters, if any
(`str.rfind('.')` when it is not `-1`). -/
def lastDotIdx (l : List Char) : Option Nat :=
  ((l.enum.filter (fun e => e.2 == '.')).getLast?).map (fun e => e.1)

/-- `pathlib.PurePath.suffix`: the extension from the last dot, empty when
the dot is absent, leading or trailing. -/
def suffixOf (nm : String) : String :=
  match lastDotIdx nm.data with
  | none => ""
  | some i =>
    if 0 < i ∧ i < nm.data.length - 1 then ⟨nm.data.drop i⟩ else ""

/-- `pathlib.PurePath.stem`: the basename with `suffixOf` removed. -/
def stemOf (nm : String) : String :=
  match lastDotIdx nm.data with
  | none => nm
  | some i =>
    if 0 < i ∧ i < nm.data.length - 1 then ⟨nm.data.take i⟩ else nm

/-- The allow-list of image extensions (lines 320-322). -/
def imageExtensions : List String :=
  [".jpg", ".jpeg", ".png", ".raw", ".cr2", ".nef", ".arw", ".dng",
   ".orf", ".rw2", ".raf", ".heic", ".tif", ".tiff", ".gif", ".bmp"]

/-- `file.suffix.lower() in image_extensions`. -/
def isImageName (nm : String) : Bool :=
  imageExtensions.contains (suffixOf nm).toLower

def isImagePath (p : Path) : Bool := isImageName (p.getLastD "")

/-- The accumulation loop of `get_image_files`: iterate `rglob` output and
append the matching files. -/
def getImageFiles (t : FTree) : List Path :=
  (rglobFiles t).foldl (fun acc p => if isImagePath p then acc ++ [p] else acc) []

/-- Build the `ImgFile` descriptors for the enumerated paths, querying the
Date Classifier oracle `dateOf` per file. -/
def mkImgFiles (srcRoot : Path) (dateOf : Path → String) (rels : List Path) :
    List ImgFile :=
  rels.map (fun rel =>
    let nm := rel.getLastD ""
    ⟨srcRoot ++ rel, stemOf nm, suffixOf nm, dateOf (srcRoot ++ rel)⟩)

/-- The full run: enumerate the source tree, then `mainRun`. -/
def runSnapVault (tree : FTree) (srcRoot : Path) (dateOf : Path → String)
    (fs0 : FileSys) (tempDir : Path) (year : Nat) (label : String)
    (ok : Nat → Bool) (dests : List Dest) : RunOutcome :=
  mainRun fs0 tempDir year label (mkImgFiles srcRoot dateOf (getImageFiles tree))
    ok dests

/-! ### Helper lemmas about the organize phase -/

theorem sumCounts_bumpCount : ∀ (c : List (String × Nat)) (d : String),
    sumCounts (bumpCount c d) = sumCounts c + 1
  | [], d => by simp [bumpCount, sumCounts]
  | (k, v) :: rest, d => by
    by_cases h : k = d
    · simp [bumpCount, h, sumCounts]
      omega
    · have := sumCounts_bumpCount rest d
      simp only [sumCounts, List.map] at this ⊢
      simp [bumpCount, h, this]
      omega

theorem organizeLoop_counts_sum (top : Path) (ok : Nat → Bool)
    (h : ∀ j, ok j = true) :
    ∀ (files : List ImgFile) (i : Nat) (st : OrgSt),
      sumCounts (organizeLoop top ok i st files).counts
        = sumCounts st.counts + files.length := by
  intro files
  induction files with
  | nil => intro i st; simp [organizeLoop]
  | cons f rest ih =>
    intro i st
    rw [organizeLoop, ih]
    simp [processFile, h i, sumCounts_bumpCount]
    omega

theorem organizeLoop_dateMkdirEvs (top : Path) (ok : Nat → Bool) :
    ∀ (files : List ImgFile) (i : Nat) (st : OrgSt),
      dateMkdirEvs (organizeLoop top ok i st files).evs
        = dateMkdirEvs st.evs ++ files.map (fun f => top ++ [f.date]) := by
  intro files
  induction files with
  | nil => intro i st; simp [organizeLoop]
  | cons f rest ih =>
    intro i st
    rw [organizeLoop, ih]
    cases hok : ok i <;>
      simp [processFile, hok, dateMkdirEvs, List.filterMap_append]

theorem processFile_fs_mem (top : Path) (st : OrgSt) (f : ImgFile) (b : Bool)
    (e : Path × Nat) (he : e ∈ (processFile top st f b).fs) :
    e ∈ st.fs ∨ ∃ nm, e.1 = top ++ [f.date, nm] := by
  cases b
  · exact Or.inl (by simpa [processFile] using he)
  · simp only [processFile, if_true, fsSet] at he
    rcases List.mem_cons.mp he with rfl | hin
    · exact Or.inr ⟨resolveName (namesIn st.fs (top ++ [f.date])) f.stem f.sfx, by simp⟩
    · exact Or.inl hin

theorem organizeLoop_fs_keys (top : Path) (ok : Nat → Bool) :
    ∀ (files : List ImgFile) (i : Nat) (st : OrgSt) (e : Path × Nat),
      e ∈ (organizeLoop top ok i st files).fs →
      e ∈ st.fs ∨ ∃ f ∈ files, ∃ nm, e.1 = top ++ [f.date, nm] := by
  intro files
  induction files with
  | nil => intro i st e he; exact Or.inl he
  | cons f rest ih =>
    intro i st e he
    rw [organizeLoop] at he
    rcases ih (i + 1) _ e he with hin | ⟨g, hg, nm, hnm⟩
    · rcases processFile_fs_mem top st f (ok i) e hin with hin' | ⟨nm, hnm⟩
      · exact Or.inl hin'
      · exact Or.inr ⟨f, by simp, nm, hnm⟩
    · exact Or.inr ⟨g, by simp [hg], nm, hnm⟩

theorem fsGet_cons_ne (e : Path × Nat) (fs : FileSys) (p : Path) (h : e.1 ≠ p) :
    fsGet (e :: fs) p = fsGet fs p := by
  unfold fsGet
  rw [List.find?_cons_of_neg]
  simp [h]

theorem organizeLoop_fsGet (top : Path) (ok : Nat → Bool) (p : Path)
    (hp : ¬ top <+: p) :
    ∀ (files : List ImgFile) (i : Nat) (st : OrgSt),
      fsGet (organizeLoop top ok i st files).fs p = fsGet st.fs p := by
  intro files
  induction files with
  | nil => intro i st; simp [organizeLoop]
  | cons f rest ih =>
    intro i st
    rw [organizeLoop, ih]
    cases hok : ok i
    · simp [processFile]
    · simp only [processFile, if_true, fsSet]
      apply fsGet_cons_ne
      intro hk
      apply hp
      rw [← hk]
      simp only [List.append_assoc]
      exact List.prefix_append top _

theorem fsGet_fsRemoveTree (root p : Path) (h : ¬ root <+: p) :
    ∀ (fs : FileSys), fsGet (fsRemoveTree fs root) p = fsGet fs p := by
  intro fs
  induction fs with
  | nil => rfl
  | cons e rest ih =>
    by_cases hk : List.isPrefixOf root e.1
    · have hne : e.1 ≠ p := fun hep => h (hep ▸ List.isPrefixOf_iff_prefix.mp hk)
      rw [show fsRemoveTree (e :: rest) root = fsRemoveTree rest root by
        simp [fsRemoveTree, List.filter, hk], ih, fsGet_cons_ne e rest p hne]
    · by_cases hep : e.1 = p
      · rw [show fsRemoveTree (e :: rest) root = e :: fsRemoveTree rest root by
          simp [fsRemoveTree, List.filter, hk]]
        unfold fsGet
        rw [List.find?_cons_of_pos _ (by simp [hep]), List.find?_cons_of_pos _ (by simp [hep])]
      · rw [show fsRemoveTree (e :: rest) root = e :: fsRemoveTree rest root by
          simp [fsRemoveTree, List.filter, hk],
          fsGet_cons_ne e _ p hep, ih, fsGet_cons_ne e rest p hep]

theorem copyEvs_append (a b : List LocalEv) :
    copyEvs (a ++ b) = copyEvs a ++ copyEvs b :=
  List.filterMap_append a b _

/-- A stored key `dir ++ [nm]` makes `nm` visible to the duplicate-name
probe of that directory. -/
theorem key_mem_namesIn (fs : FileSys) (dir : Path) (nm : String)
    (h : dir ++ [nm] ∈ fs.map Prod.fst) : nm ∈ namesIn fs dir := by
  rw [List.mem_map] at h
  obtain ⟨e, he, hk⟩ := h
  unfold namesIn
  rw [List.mem_filterMap]
  refine ⟨e, he, ?_⟩
  rw [hk]
  simp

theorem copyEvs_mkdirDate (d : Path) : copyEvs [LocalEv.mkdirDate d] = [] := rfl

theorem copyEvs_copyFile (s d : Path) : copyEvs [LocalEv.copyFile s d] = [(s, d)] := rfl

/-- Within one organize run, the `shutil.copy2` destinations are pairwise
distinct: each successful copy claims its name on disk, and the probe never
returns a name that exists in the directory. -/
theorem organizeLoop_copy_dsts_nodup (top : Path) (ok : Nat → Bool) :
    ∀ (files : List ImgFile) (i : Nat) (st : OrgSt),
      (∀ pr ∈ copyEvs st.evs, pr.2 ∈ st.fs.map Prod.fst) →
      ((copyEvs st.evs).map Prod.snd).Nodup →
      ((copyEvs (organizeLoop top ok i st files).evs).map Prod.snd).Nodup := by
  intro files
  induction files with
  | nil => intro i st _ h2; exact h2
  | cons f rest ih =>
    intro i st h1 h2
    rw [organizeLoop]
    cases hok : ok i
    · simp only [processFile, hok, Bool.false_eq_true, if_false]
      apply ih
      · intro pr hpr
        rw [copyEvs_append, copyEvs_mkdirDate, List.append_nil] at hpr
        exact h1 pr hpr
      · rw [copyEvs_append, copyEvs_mkdirDate, List.append_nil]
        exact h2
    · simp only [processFile, hok, if_true]
      apply ih
      · intro pr hpr
        rw [copyEvs_append, copyEvs_append, copyEvs_mkdirDate, List.append_nil,
          copyEvs_copyFile] at hpr
        rcases List.mem_append.mp hpr with hin | hin
        · simp only [fsSet, List.map_cons]
          exact List.mem_cons_of_mem _ (h1 pr hin)
        · simp only [List.mem_singleton] at hin
          subst hin
          simp [fsSet]
      · rw [copyEvs_append, copyEvs_append, copyEvs_mkdirDate, List.append_nil,
          copyEvs_copyFile, List.map_append, List.nodup_append]
        refine ⟨h2, by simp, ?_⟩
        intro d hd hd'
        simp only [List.map_cons, List.map_nil, List.mem_singleton] at hd'
        subst hd'
        rw [List.mem_map] at hd
        obtain ⟨pr, hpr, hdst⟩ := hd
        have hkey := h1 pr hpr
        rw [hdst] at hkey
        exact resolveName_not_mem (namesIn st.fs (top ++ [f.date])) f.stem f.sfx
          (key_mem_namesIn st.fs (top ++ [f.date]) _ hkey)

/-- Unconditional form at the `organize_photos` entry point. -/
theorem organizePhotos_copy_dsts_nodup (fs0 : FileSys) (destDir : Path)
    (folderName : String) (files : List ImgFile) (ok : Nat → Bool) :
    ((copyEvs (organizePhotos fs0 destDir folderName files ok).2.2.2).map
      Prod.snd).Nodup := by
  unfold organizePhotos
  cases hf : files.isEmpty
  · simp only [hf, Bool.false_eq_true, if_false]
    apply organizeLoop_copy_dsts_nodup
    · intro pr hpr
      simp [copyEvs] at hpr
    · simp [copyEvs]
  · simp [copyEvs]

/-! ### Helper lemmas about the shipping phase -/

/-- The part of a trace strictly after the first occurrence of `e`. -/
def afterEv (e : SmbEv) (tr : List SmbEv) : List SmbEv :=
  (tr.dropWhile (fun x => !(x == e))).tail

theorem afterEv_shape (e : SmbEv) (mid : List SmbEv) :
    ∀ (pre : List SmbEv), (∀ x ∈ pre, x ≠ e) →
      afterEv e (pre ++ e :: mid) = mid := by
  intro pre
  induction pre with
  | nil =>
    intro _
    simp [afterEv, List.dropWhile]
  | cons a rest ih =>
    intro hpre
    have ha : (a == e) = false := beq_eq_false_iff_ne.mpr (hpre a (by simp))
    have : afterEv e (a :: (rest ++ e :: mid)) = afterEv e (rest ++ e :: mid) := by
      simp [afterEv, List.dropWhile, ha]
    simpa [this] using ih (fun x hx => hpre x (by simp [hx]))

/-- The stale-mount cleanup events never include a successful mount marker
nor a `rsync` transfer. -/
theorem stalePre_events (env : SmbEnv) (x : SmbEv)
    (hx : x ∈ (if env.staleMounted then
        if env.staleUmountOk then [SmbEv.umountStale]
        else [SmbEv.umountStale, SmbEv.umountStaleLazy]
      else ([] : List SmbEv))) :
    x = SmbEv.umountStale ∨ x = SmbEv.umountStaleLazy := by
  by_cases hm : env.staleMounted = true
  · rw [if_pos hm] at hx
    by_cases hu : env.staleUmountOk = true
    · rw [if_pos hu] at hx
      simp at hx
      exact Or.inl hx
    · rw [if_neg hu] at hx
      rcases List.mem_cons.mp hx with h | h
      · exact Or.inl h
      · simp at h
        exact Or.inr h
  · rw [if_neg hm] at hx
    simp at hx

theorem umountCmd_mem_smbCleanup (env : SmbEnv) : SmbEv.umountCmd ∈ smbCleanup env := by
  unfold smbCleanup
  rcases env.umountOk <;> simp

theorem umountLazy_mem_smbCleanup (env : SmbEnv) (h : env.umountOk = false) :
    SmbEv.umountLazy ∈ smbCleanup env := by
  simp [smbCleanup, h]

theorem rsyncCopy_not_mem_pre (env : SmbEnv) (s d : Path) :
    SmbEv.rsyncCopy s d ∉ (if env.staleMounted then
        if env.staleUmountOk then [SmbEv.umountStale]
        else [SmbEv.umountStale, SmbEv.umountStaleLazy]
      else ([] : List SmbEv)) := by
  intro h
  rcases stalePre_events env _ h with h' | h' <;> simp at h'

theorem rsyncCopy_not_mem_smbCleanup (env : SmbEnv) (s d : Path) :
    SmbEv.rsyncCopy s d ∉ smbCleanup env := by
  unfold smbCleanup
  by_cases h : env.umountOk = true <;> simp [h]

theorem rsyncCopy_not_mem_baseEvs (env : SmbEnv) (basePath : Path) (s d : Path) :
    SmbEv.rsyncCopy s d
      ∉ (if env.remotePathSet then [SmbEv.mkdirRemoteBase basePath]
        else ([] : List SmbEv)) := by
  by_cases h : env.remotePathSet = true <;> simp [h]

/-- Every `rsync` transfer recorded by `copyFolderToSmb` moves a file stored
below the local source folder to the same relative path below the remote
`final_dest = basePath / folder_name`. -/
theorem copyFolderToSmb_rsync_mem (env : SmbEnv) (fs : FileSys) (src basePath : Path)
    (fn : String) (s d : Path)
    (hmem : SmbEv.rsyncCopy s d ∈ (copyFolderToSmb env fs src basePath fn).2) :
    ∃ e ∈ filesUnder fs src, s = e.1 ∧ d = (basePath ++ [fn]) ++ e.1.drop src.length := by
  unfold copyFolderToSmb at hmem
  by_cases h1 : env.staleMounted ∧ ¬env.staleUmountOk ∧ ¬env.staleLazyOk
  · rw [if_pos h1] at hmem
    simp at hmem
  · rw [if_neg h1] at hmem
    by_cases h2 : env.mountOk
    · rw [if_neg (by simp [h2])] at hmem
      simp only [] at hmem
      by_cases h3 : env.remotePathSet ∧ ¬env.remoteMkdirOk
      · rw [if_pos h3] at hmem
        rcases List.mem_append.mp hmem with h | h
        · rcases List.mem_append.mp h with h | h
          · rcases List.mem_append.mp h with h | h
            · exact absurd h (rsyncCopy_not_mem_pre env s d)
            · simp at h
          · exact absurd h (rsyncCopy_not_mem_baseEvs env basePath s d)
        · exact absurd h (rsyncCopy_not_mem_smbCleanup env s d)
      · rw [if_neg h3] at hmem
        by_cases h4 : env.destFolderPresent
        · rw [if_pos h4] at hmem
          rcases List.mem_append.mp hmem with h | h
          · rcases List.mem_append.mp h with h | h
            · rcases List.mem_append.mp h with h | h
              · exact absurd h (rsyncCopy_not_mem_pre env s d)
              · simp at h
            · exact absurd h (rsyncCopy_not_mem_baseEvs env basePath s d)
          · exact absurd h (rsyncCopy_not_mem_smbCleanup env s d)
        · rw [if_neg h4] at hmem
          by_cases h5 : env.remoteMkdirOk
          · rw [if_neg (by simp [h5])] at hmem
            rcases List.mem_append.mp hmem with h | h
            · rcases List.mem_append.mp h with h | h
              · rcases List.mem_append.mp h with h | h
                · rcases List.mem_append.mp h with h | h
                  · rcases List.mem_append.mp h with h | h
                    · exact absurd h (rsyncCopy_not_mem_pre env s d)
                    · simp at h
                  · exact absurd h (rsyncCopy_not_mem_baseEvs env basePath s d)
                · simp at h
              · rw [rsyncEvents, List.mem_map] at h
                obtain ⟨e, he, heq⟩ := h
                refine ⟨e, he, ?_, ?_⟩ <;> cases heq <;> rfl
            · exact absurd h (rsyncCopy_not_mem_smbCleanup env s d)
          · rw [if_pos (by simp [h5])] at hmem
            rcases List.mem_append.mp hmem with h | h
            · rcases List.mem_append.mp h with h | h
              · rcases List.mem_append.mp h with h | h
                · rcases List.mem_append.mp h with h | h
                  · exact absurd h (rsyncCopy_not_mem_pre env s d)
                  · simp at h
                · exact absurd h (rsyncCopy_not_mem_baseEvs env basePath s d)
              · simp at h
            · exact absurd h (rsyncCopy_not_mem_smbCleanup env s d)
    · rw [if_pos (by simp [h2])] at hmem
      rcases List.mem_append.mp hmem with h | h
      · exact absurd h (rsyncCopy_not_mem_pre env s d)
      · simp at h

/-- Every event in the `copy_to_destinations` trace comes from the
`copy_folder_to_smb` call of one of the configured destinations. -/
theorem copyToDestinations_mem (fs : FileSys) (src : Path) (fn : String) :
    ∀ (dests : List Dest) (ev : SmbEv),
      ev ∈ (copyToDestinations fs src fn dests).2 →
      ∃ dst ∈ dests, ev ∈ (copyFolderToSmb dst.env fs src dst.basePath fn).2 := by
  intro dests
  induction dests with
  | nil => intro ev h; simp [copyToDestinations] at h
  | cons d rest ih =>
    intro ev h
    rw [copyToDestinations] at h
    by_cases hr : (copyFolderToSmb d.env fs src d.basePath fn).1
    · rw [if_pos hr] at h
      rcases List.mem_append.mp h with h' | h'
      · exact ⟨d, by simp, h'⟩
      · obtain ⟨dst, hdst, hev⟩ := ih ev h'
        exact ⟨dst, by simp [hdst], hev⟩
    · rw [if_neg hr] at h
      exact ⟨d, by simp, h⟩

/-- Accumulation loop of `get_image_files` equals a filter of the `rglob`
output. -/
theorem foldl_filter_acc (pred : Path → Bool) :
    ∀ (l : List Path) (acc : List Path),
      l.foldl (fun acc p => if pred p then acc ++ [p] else acc) acc
        = acc ++ l.filter pred := by
  intro l
  induction l with
  | nil => intro acc; simp
  | cons a rest ih =>
    intro acc
    cases ha : pred a <;> simp [List.foldl, ha, ih, List.filter_cons]

/-! ### Claims -/

/-- C1 (as stated, refuted): a run can complete successfully and return
`RunStatistics` whose date-breakdown sum differs from the reported total.
When an individual file fails to copy, the `except` clause skips it:
`total_photos = len(image_files)` still counts it, but `date_counts` does
not, so here the run returns stats with `total_photos = 1` and an empty
breakdown summing to `0`. -/
theorem C1_counterexample :
    (mainRun [] ["tmp"] 2026 "T" [⟨["sd", "a.jpg"], "a", ".jpg", "2024-05-01"⟩]
        (fun _ => false)
        [⟨["base"], ⟨false, true, true, true, true, true, false, true, true⟩⟩]).result
      = Except.ok ⟨1, 0, []⟩ ∧
    sumCounts ([] : List (String × Nat)) ≠ 1 := by
  constructor
  · rfl
  · decide

/-- C1 (amended): when every file of the run is processed without error, the
sum of the per-date counts in `date_breakdown` equals `total_photos`. -/
theorem C1_stats_sum_eq_total (fs0 : FileSys) (destDir : Path) (folderName : String)
    (files : List ImgFile) (ok : Nat → Bool) (h : ∀ j, ok j = true) :
    sumCounts (organizePhotos fs0 destDir folderName files ok).2.1.date_breakdown
      = (organizePhotos fs0 destDir folderName files ok).2.1.total_photos := by
  unfold organizePhotos
  cases hf : files.isEmpty
  · simp only [hf, Bool.false_eq_true, if_false]
    rw [organizeLoop_counts_sum _ _ h]
    simp [sumCounts]
  · simp [hf, sumCounts]

/-- Witness for C1 at a concrete one-file run with no failures. -/
theorem C1_stats_sum_eq_total_witness :
    sumCounts (organizePhotos [] ["tmp"] "F"
        [⟨["sd", "a.jpg"], "a", ".jpg", "2024-05-01"⟩] (fun _ => true)).2.1.date_breakdown
      = (organizePhotos [] ["tmp"] "F"
        [⟨["sd", "a.jpg"], "a", ".jpg", "2024-05-01"⟩] (fun _ => true)).2.1.total_photos :=
  C1_stats_sum_eq_total [] ["tmp"] "F"
    [⟨["sd", "a.jpg"], "a", ".jpg", "2024-05-01"⟩] (fun _ => true) (fun _ => rfl)

/-- C2 (as stated, refuted): a failure while transferring an individual file
does not abort the run.  Here the first file's copy fails, yet the second
file is still processed and copied afterwards (the per-file `except` clause
logs and continues). -/
theorem C2_counterexample :
    copyEvs (organizePhotos [] ["tmp"] "F"
        [⟨["sd", "a.jpg"], "a", ".jpg", "2024-05-01"⟩,
         ⟨["sd", "b.jpg"], "b", ".jpg", "2024-05-02"⟩]
        (fun i => i == 1)).2.2.2
      = [(["sd", "b.jpg"], ["tmp", "F", "2024-05-02", "b.jpg"])] ∧
    (organizePhotos [] ["tmp"] "F"
        [⟨["sd", "a.jpg"], "a", ".jpg", "2024-05-01"⟩,
         ⟨["sd", "b.jpg"], "b", ".jpg", "2024-05-02"⟩]
        (fun i => i == 1)).2.1.date_breakdown
      = [("2024-05-02", 1)] := by
  decide

/-- C2 (amended): per-file failures during local organization are logged and
skipped — every file is still attempted (one dated-directory provisioning
per file regardless of earlier failures) — while a failure shipping to a
destination aborts the run immediately: the loop raises and no later
destination is attempted. -/
theorem C2_per_file_skip_ship_abort :
    (∀ (top : Path) (ok : Nat → Bool) (files : List ImgFile) (i : Nat) (st : OrgSt),
      (dateMkdirEvs (organizeLoop top ok i st files).evs).length
        = (dateMkdirEvs st.evs).length + files.length) ∧
    (∀ (fs : FileSys) (src : Path) (fn : String) (d : Dest) (rest : List Dest),
      (copyFolderToSmb d.env fs src d.basePath fn).1 = false →
      copyToDestinations fs src fn (d :: rest)
        = (Except.error "Failed to copy",
           (copyFolderToSmb d.env fs src d.basePath fn).2)) := by
  constructor
  · intro top ok files i st
    rw [organizeLoop_dateMkdirEvs]
    simp
  · intro fs src fn d rest h
    rw [copyToDestinations]
    simp [h]

/-- Witness for C2: a run whose only file fails still attempts it, and a
destination whose mount fails aborts the destination loop at that point. -/
theorem C2_per_file_skip_ship_abort_witness :
    (dateMkdirEvs (organizeLoop ["tmp", "F"] (fun _ => false) 0 ⟨[], [], []⟩
        [⟨["sd", "a.jpg"], "a", ".jpg", "2024-05-01"⟩]).evs).length
      = (dateMkdirEvs ([] : List LocalEv)).length + 1 ∧
    copyToDestinations [] ["tmp", "F"] "F"
        [⟨["base"], ⟨false, true, true, false, true, true, false, true, true⟩⟩]
      = (Except.error "Failed to copy",
         (copyFolderToSmb ⟨false, true, true, false, true, true, false, true, true⟩
            [] ["tmp", "F"] ["base"] "F").2) :=
  ⟨C2_per_file_skip_ship_abort.1 ["tmp", "F"] (fun _ => false)
      [⟨["sd", "a.jpg"], "a", ".jpg", "2024-05-01"⟩] 0 ⟨[], [], []⟩,
   C2_per_file_skip_ship_abort.2 [] ["tmp", "F"] "F"
      ⟨["base"], ⟨false, true, true, false, true, true, false, true, true⟩⟩ []
      (by decide)⟩

/-- C3: within one destination directory the name resolver never returns a
name already present; a fresh desired name is kept unchanged; a clashing
desired name gets the first free candidate `stem_k ++ suffix`, probing
`k = 1, 2, ...` (every smaller candidate was taken); and consequently no two
copies of one run ever land on the same destination path. -/
theorem C3_resolver_no_duplicate (existing : List String) (stem sfx : String) :
    (resolveName existing stem sfx ∉ existing ∧
    (stem ++ sfx ∉ existing → resolveName existing stem sfx = stem ++ sfx) ∧
    (stem ++ sfx ∈ existing →
      ∃ k, 1 ≤ k ∧ resolveName existing stem sfx = candidateName stem sfx k ∧
        candidateName stem sfx k ∉ existing ∧
        ∀ j, 1 ≤ j → j < k → candidateName stem sfx j ∈ existing)) ∧
    (∀ (fs0 : FileSys) (destDir : Path) (folderName : String)
      (files : List ImgFile) (ok : Nat → Bool),
      ((copyEvs (organizePhotos fs0 destDir folderName files ok).2.2.2).map
        Prod.snd).Nodup) :=
  ⟨⟨resolveName_not_mem existing stem sfx,
    resolveName_keeps_fresh existing stem sfx,
    fun h => by
      obtain ⟨k, h1, h2, h3⟩ := resolveName_probes existing stem sfx h
      exact ⟨k, h1, h2, h2 ▸ resolveName_not_mem existing stem sfx, h3⟩⟩,
   organizePhotos_copy_dsts_nodup⟩

/-- Witness for C3, end-to-end scenario B: a second `IMG_0001.jpg` in the
same directory resolves to `IMG_0001_1.jpg`. -/
theorem C3_resolver_no_duplicate_witness :
    (∃ k, 1 ≤ k ∧
      resolveName ["IMG_0001.jpg"] "IMG_0001" ".jpg" = candidateName "IMG_0001" ".jpg" k ∧
      candidateName "IMG_0001" ".jpg" k ∉ ["IMG_0001.jpg"] ∧
      ∀ j, 1 ≤ j → j < k → candidateName "IMG_0001" ".jpg" j ∈ ["IMG_0001.jpg"]) ∧
    resolveName ["IMG_0001.jpg"] "IMG_0001" ".jpg" = "IMG_0001_1.jpg" :=
  ⟨(C3_resolver_no_duplicate ["IMG_0001.jpg"] "IMG_0001" ".jpg").1.2.2 (by decide),
   by decide⟩

/-- C4 (as stated, refuted): there is no run-scoped memoization cache.  Two
files with the same capture date trigger two `mkdir` attempts for the same
dated directory within one run. -/
theorem C4_counterexample :
    (dateMkdirEvs (organizePhotos [] ["tmp"] "F"
        [⟨["sd", "a.jpg"], "a", ".jpg", "2024-05-01"⟩,
         ⟨["sd", "b.jpg"], "b", ".jpg", "2024-05-01"⟩]
        (fun _ => true)).2.2.2).count ["tmp", "F", "2024-05-01"] = 2 := by
  decide

/-- C4 (amended): provisioning is uncached but idempotent: every file
triggers exactly one `mkdir(exist_ok=True)` attempt for its dated
directory — one attempt per file, not at most one per directory. -/
theorem C4_one_mkdir_attempt_per_file (fs0 : FileSys) (destDir : Path)
    (folderName : String) (files : List ImgFile) (ok : Nat → Bool) :
    dateMkdirEvs (organizePhotos fs0 destDir folderName files ok).2.2.2
      = files.map (fun f => destDir ++ [folderName] ++ [f.date]) := by
  unfold organizePhotos
  cases hf : files.isEmpty
  · simp only [hf, Bool.false_eq_true, if_false]
    rw [organizeLoop_dateMkdirEvs]
    simp [dateMkdirEvs]
  · rw [List.isEmpty_iff.mp hf]
    simp [dateMkdirEvs]

/-- C5: enumeration is a pure function of the source tree (which models the
directory entries in the order the operating system reports them), so two
enumerations of an unchanged tree return the identical ordered list; the
output is the `rglob` traversal order restricted to recognized image
extensions. -/
theorem C5_enumeration_deterministic (t1 t2 : FTree) (h : t1 = t2) :
    getImageFiles t1 = getImageFiles t2 ∧
    getImageFiles t1 = (rglobFiles t1).filter isImagePath := by
  subst h
  refine ⟨rfl, ?_⟩
  unfold getImageFiles
  rw [foldl_filter_acc]
  simp

/-- Witness for C5 on a concrete two-level tree. -/
theorem C5_enumeration_deterministic_witness :
    getImageFiles (FTree.node ["a.jpg", "b.txt"] [("sub", FTree.node ["c.png"] [])])
      = getImageFiles (FTree.node ["a.jpg", "b.txt"] [("sub", FTree.node ["c.png"] [])]) ∧
    getImageFiles (FTree.node ["a.jpg", "b.txt"] [("sub", FTree.node ["c.png"] [])])
      = (rglobFiles (FTree.node ["a.jpg", "b.txt"]
          [("sub", FTree.node ["c.png"] [])])).filter isImagePath :=
  C5_enumeration_deterministic _ _ rfl

/-- C6: a run whose enumeration finds no image files raises the no-images
error and performs no remote call at all (no mount, no remote mkdir, no
transfer). -/
theorem C6_no_files_no_remote_calls (tree : FTree) (srcRoot : Path)
    (dateOf : Path → String) (fs0 : FileSys) (tempDir : Path) (year : Nat)
    (label : String) (ok : Nat → Bool) (dests : List Dest)
    (h : getImageFiles tree = []) :
    (runSnapVault tree srcRoot dateOf fs0 tempDir year label ok dests).result
      = Except.error "Failed to organize photos - no images found" ∧
    (runSnapVault tree srcRoot dateOf fs0 tempDir year label ok dests).remoteEvs = [] := by
  unfold runSnapVault mainRun
  rw [h]
  simp [mkImgFiles, organizePhotos]

/-- Witness for C6 on an empty source tree. -/
theorem C6_no_files_no_remote_calls_witness :
    getImageFiles (FTree.node [] []) = [] ∧
    (runSnapVault (FTree.node [] []) ["sd"] (fun _ => "2024-05-01") [] ["tmp"]
        2026 "T" (fun _ => true)
        [⟨["base"], ⟨false, true, true, true, true, true, false, true, true⟩⟩]).result
      = Except.error "Failed to organize photos - no images found" ∧
    (runSnapVault (FTree.node [] []) ["sd"] (fun _ => "2024-05-01") [] ["tmp"]
        2026 "T" (fun _ => true)
        [⟨["base"], ⟨false, true, true, true, true, true, false, true, true⟩⟩]).remoteEvs
      = [] := by
  refine ⟨by decide, ?_, ?_⟩
  · exact (C6_no_files_no_remote_calls (FTree.node [] []) ["sd"] (fun _ => "2024-05-01")
      [] ["tmp"] 2026 "T" (fun _ => true)
      [⟨["base"], ⟨false, true, true, true, true, true, false, true, true⟩⟩] (by decide)).1
  · exact (C6_no_files_no_remote_calls (FTree.node [] []) ["sd"] (fun _ => "2024-05-01")
      [] ["tmp"] 2026 "T" (fun _ => true)
      [⟨["base"], ⟨false, true, true, true, true, true, false, true, true⟩⟩] (by decide)).2

/-- C7: as long as the temp working folder is not inside the source tree
(nor the source inside it — the deployment layout: temp lives next to the
script, the source is the mounted card), a full run never deletes, moves or
modifies any file under the source root: every write lands below the temp
top-level folder and cleanup removes only that folder. -/
theorem C7_source_tree_preserved (fs0 : FileSys) (tempDir : Path) (year : Nat)
    (label : String) (files : List ImgFile) (ok : Nat → Bool) (dests : List Dest)
    (srcRoot p : Path)
    (h1 : ¬ srcRoot <+: tempDir ++ [makeFolderName year label])
    (h2 : ¬ tempDir ++ [makeFolderName year label] <+: srcRoot)
    (hp : srcRoot <+: p) :
    fsGet (mainRun fs0 tempDir year label files ok dests).fs p = fsGet fs0 p := by
  have htop : ¬ (tempDir ++ [makeFolderName year label]) <+: p := by
    intro hc
    rcases List.prefix_or_prefix_of_prefix hp hc with h | h
    · exact h1 h
    · exact h2 h
  unfold mainRun organizePhotos
  cases hf : files.isEmpty
  · simp only [hf, Bool.false_eq_true, if_false]
    rw [fsGet_fsRemoveTree _ _ htop, organizeLoop_fsGet _ _ _ htop]
  · simp [hf]

/-- Witness for C7 on a concrete run that copies and ships one file. -/
theorem C7_source_tree_preserved_witness :
    (¬ ((["sd"] : Path) <+: ["tmp"] ++ [makeFolderName 2026 "T"])) ∧
    (¬ ((["tmp"] : Path) ++ [makeFolderName 2026 "T"] <+: ["sd"])) ∧
    fsGet (mainRun [(["sd", "a.jpg"], 7)] ["tmp"] 2026 "T"
        [⟨["sd", "a.jpg"], "a", ".jpg", "2024-05-01"⟩] (fun _ => true)
        [⟨["base"], ⟨false, true, true, true, true, true, false, true, true⟩⟩]).fs
        ["sd", "a.jpg"]
      = fsGet [(["sd", "a.jpg"], 7)] ["sd", "a.jpg"] :=
  ⟨by decide, by decide,
   C7_source_tree_preserved [(["sd", "a.jpg"], 7)] ["tmp"] 2026 "T"
      [⟨["sd", "a.jpg"], "a", ".jpg", "2024-05-01"⟩] (fun _ => true)
      [⟨["base"], ⟨false, true, true, true, true, true, false, true, true⟩⟩]
      ["sd"] ["sd", "a.jpg"] (by decide) (by decide) (by decide)⟩

theorem afterEv_mount (env : SmbEnv) (mid : List SmbEv) :
    afterEv (SmbEv.mountCmd true)
      ((if env.staleMounted then
          if env.staleUmountOk then [SmbEv.umountStale]
          else [SmbEv.umountStale, SmbEv.umountStaleLazy]
        else ([] : List SmbEv)) ++ ([SmbEv.mountCmd true] ++ mid)) = mid := by
  rw [show ([SmbEv.mountCmd true] ++ mid) = SmbEv.mountCmd true :: mid from rfl]
  exact afterEv_shape _ _ _ (fun x hx => by
    rcases stalePre_events env x hx with h | h <;> simp [h])

/-- C8: whenever `copy_folder_to_smb` mounts the share successfully, the
`finally` block runs the `umount` command before the function returns — on
the success path, on the skip path and on every failure path — and when the
plain `umount` fails the lazy `umount -l` fallback is also issued. -/
theorem C8_session_released (env : SmbEnv) (fs : FileSys) (src basePath : Path)
    (fn : String)
    (h : SmbEv.mountCmd true ∈ (copyFolderToSmb env fs src basePath fn).2) :
    SmbEv.umountCmd
      ∈ afterEv (SmbEv.mountCmd true) (copyFolderToSmb env fs src basePath fn).2 ∧
    (env.umountOk = false →
      SmbEv.umountLazy
        ∈ afterEv (SmbEv.mountCmd true) (copyFolderToSmb env fs src basePath fn).2) := by
  unfold copyFolderToSmb at h ⊢
  by_cases h1 : env.staleMounted ∧ ¬env.staleUmountOk ∧ ¬env.staleLazyOk
  · rw [if_pos h1] at h
    simp at h
  · rw [if_neg h1] at h ⊢
    by_cases h2 : env.mountOk
    · rw [if_neg (by simp [h2])]
      by_cases h3 : env.remotePathSet ∧ ¬env.remoteMkdirOk
      · rw [if_pos h3]
        simp only [List.append_assoc]
        rw [afterEv_mount env]
        refine ⟨?_, fun hu => ?_⟩
        · simp [List.mem_append, umountCmd_mem_smbCleanup env]
        · simp [List.mem_append, umountLazy_mem_smbCleanup env hu]
      · rw [if_neg h3]
        by_cases h4 : env.destFolderPresent
        · rw [if_pos h4]
          simp only [List.append_assoc]
          rw [afterEv_mount env]
          refine ⟨?_, fun hu => ?_⟩
          · simp [List.mem_append, umountCmd_mem_smbCleanup env]
          · simp [List.mem_append, umountLazy_mem_smbCleanup env hu]
        · rw [if_neg h4]
          by_cases h5 : env.remoteMkdirOk
          · rw [if_neg (by simp [h5])]
            simp only [List.append_assoc]
            rw [afterEv_mount env]
            refine ⟨?_, fun hu => ?_⟩
            · simp [List.mem_append, umountCmd_mem_smbCleanup env]
            · simp [List.mem_append, umountLazy_mem_smbCleanup env hu]
          · rw [if_pos (by simp [h5])]
            simp only [List.append_assoc]
            rw [afterEv_mount env]
            refine ⟨?_, fun hu => ?_⟩
            · simp [List.mem_append, umountCmd_mem_smbCleanup env]
            · simp [List.mem_append, umountLazy_mem_smbCleanup env hu]
    · rw [if_pos (by simp [h2])] at h
      rcases List.mem_append.mp h with h' | h'
      · rcases stalePre_events env _ h' with h'' | h'' <;> simp at h''
      · simp at h'

/-- Witness for C8 on a concrete successful transfer. -/
theorem C8_session_released_witness :
    SmbEv.mountCmd true
      ∈ (copyFolderToSmb ⟨false, true, true, true, true, true, false, true, true⟩
          [] ["tmp", "F"] ["base"] "F").2 ∧
    SmbEv.umountCmd
      ∈ afterEv (SmbEv.mountCmd true)
          (copyFolderToSmb ⟨false, true, true, true, true, true, false, true, true⟩
            [] ["tmp", "F"] ["base"] "F").2 :=
  ⟨by decide,
   (C8_session_released ⟨false, true, true, true, true, true, false, true, true⟩
      [] ["tmp", "F"] ["base"] "F" (by decide)).1⟩

/-- C9 (as stated, refuted): the top-level remote folder is not the
user-supplied label verbatim — `main` prepends the current year
(`f"{current_year} - {folder_input}"`), so with label `Trip` the files land
under `2026 - Trip`, and no transfer of this concrete run lands under
`basePath / Trip`. -/
theorem C9_counterexample :
    makeFolderName 2026 "Trip" ≠ "Trip" ∧
    SmbEv.rsyncCopy ["tmp", "2026 - Trip", "2024-05-01", "a.jpg"]
        ["base", "2026 - Trip", "2024-05-01", "a.jpg"]
      ∈ (mainRun [(["sd", "a.jpg"], 7)] ["tmp"] 2026 "Trip"
          [⟨["sd", "a.jpg"], "a", ".jpg", "2024-05-01"⟩] (fun _ => true)
          [⟨["base"], ⟨false, true, true, true, true, true, false, true, true⟩⟩]).remoteEvs ∧
    ((mainRun [(["sd", "a.jpg"], 7)] ["tmp"] 2026 "Trip"
          [⟨["sd", "a.jpg"], "a", ".jpg", "2024-05-01"⟩] (fun _ => true)
          [⟨["base"], ⟨false, true, true, true, true, true, false, true, true⟩⟩]).remoteEvs.all
        (fun e => match e with
          | SmbEv.rsyncCopy _ dp => !(List.isPrefixOf ["base", "Trip"] dp)
          | _ => true)) = true := by
  decide

/-- C9 (amended): the top-level remote folder name is
`f"{year} - {label}"`, and every transferred file lands at
`basePath / (year - label) / date / filename` of one of the configured
destinations (assuming the temp working folder starts empty, as `main`
arranges). -/
theorem C9_remote_layout (fs0 : FileSys) (tempDir : Path) (year : Nat)
    (label : String) (files : List ImgFile) (ok : Nat → Bool) (dests : List Dest)
    (s d : Path)
    (hfresh : ∀ e ∈ fs0, ¬ (tempDir ++ [makeFolderName year label]) <+: e.1)
    (hmem : SmbEv.rsyncCopy s d
      ∈ (mainRun fs0 tempDir year label files ok dests).remoteEvs) :
    ∃ dst ∈ dests, ∃ f ∈ files, ∃ nm,
      d = dst.basePath ++ [makeFolderName year label, f.date, nm] := by
  unfold mainRun organizePhotos at hmem
  cases hf : files.isEmpty
  · rw [hf] at hmem
    simp only [Bool.false_eq_true, if_false] at hmem
    obtain ⟨dst, hdst, hev⟩ := copyToDestinations_mem _ _ _ dests _ hmem
    obtain ⟨e, he, hs, hdp⟩ := copyFolderToSmb_rsync_mem _ _ _ _ _ _ _ hev
    unfold filesUnder at he
    obtain ⟨hefs, hpref⟩ := List.mem_filter.mp he
    rcases organizeLoop_fs_keys _ _ _ _ _ _ hefs with h0 | ⟨f, hfmem, nm, hkey⟩
    · exact absurd (List.isPrefixOf_iff_prefix.mp hpref) (hfresh e h0)
    · refine ⟨dst, hdst, f, hfmem, nm, ?_⟩
      rw [hdp, hkey, List.drop_left]
      simp
  · rw [hf] at hmem
    simp at hmem

/-- Witness for C9 on a concrete run shipping one dated file. -/
theorem C9_remote_layout_witness :
    ∃ dst ∈ [(⟨["base"], ⟨false, true, true, true, true, true, false, true, true⟩⟩ : Dest)],
      ∃ f ∈ [(⟨["sd", "a.jpg"], "a", ".jpg", "2024-05-01"⟩ : ImgFile)], ∃ nm,
        (["base", "2026 - T", "2024-05-01", "a.jpg"] : Path)
          = dst.basePath ++ [makeFolderName 2026 "T", f.date, nm] :=
  C9_remote_layout [(["sd", "a.jpg"], 7)] ["tmp"] 2026 "T"
    [⟨["sd", "a.jpg"], "a", ".jpg", "2024-05-01"⟩] (fun _ => true)
    [⟨["base"], ⟨false, true, true, true, true, true, false, true, true⟩⟩]
    ["tmp", "2026 - T", "2024-05-01", "a.jpg"]
    ["base", "2026 - T", "2024-05-01", "a.jpg"]
    (by decide) (by decide)

/-- C10: when the remote top-level folder `basePath / folder_name` already
exists at a destination, `copy_folder_to_smb` skips the transfer entirely
(no `rsync` is invoked, nothing is copied) and still returns `True`, so the
run treats that destination as a success. -/
theorem C10_existing_folder_skips (env : SmbEnv) (fs : FileSys) (src basePath : Path)
    (fn : String)
    (hpre : ¬(env.staleMounted ∧ ¬env.staleUmountOk ∧ ¬env.staleLazyOk))
    (hm : env.mountOk = true)
    (hmk : env.remotePathSet = true → env.remoteMkdirOk = true)
    (hd : env.destFolderPresent = true) :
    (copyFolderToSmb env fs src basePath fn).1 = true ∧
    ∀ s d, SmbEv.rsyncCopy s d ∉ (copyFolderToSmb env fs src basePath fn).2 := by
  have h3 : ¬(env.remotePathSet ∧ ¬env.remoteMkdirOk) := by
    rintro ⟨a, b⟩
    exact b (hmk a)
  unfold copyFolderToSmb
  rw [if_neg hpre, if_neg (by simp [hm]), if_neg h3, if_pos hd]
  refine ⟨rfl, fun s d hmem => ?_⟩
  rcases List.mem_append.mp hmem with h | h
  · rcases List.mem_append.mp h with h | h
    · rcases List.mem_append.mp h with h | h
      · exact absurd h (rsyncCopy_not_mem_pre env s d)
      · simp at h
    · exact absurd h (rsyncCopy_not_mem_baseEvs env basePath s d)
  · exact absurd h (rsyncCopy_not_mem_smbCleanup env s d)

/-- Witness for C10 on a concrete destination whose top-level folder is
already present. -/
theorem C10_existing_folder_skips_witness :
    (copyFolderToSmb ⟨false, true, true, true, true, true, true, true, true⟩
        [] ["tmp", "F"] ["base"] "F").1 = true ∧
    ∀ s d, SmbEv.rsyncCopy s d
      ∉ (copyFolderToSmb ⟨false, true, true, true, true, true, true, true, true⟩
          [] ["tmp", "F"] ["base"] "F").2 :=
  C10_existing_folder_skips ⟨false, true, true, true, true, true, true, true, true⟩
    [] ["tmp", "F"] ["base"] "F" (by decide) (by decide) (fun _ => by decide) (by decide)

end SnapVault
